import Mathlib

/-!
Verification of the segment travel-time estimation engine of
hk-bus-time-between-stops (src/main.py).

Modelling conventions:
* Python floats are modelled as rationals (ℚ); the numeric literals 0.75,
  1.25, 1.5, 2.0, 0.01 of the source are exactly representable and written
  as 3/4, 5/4, 3/2, 2, 1/100.
* Instants (datetime values) are modelled as rational numbers of seconds on
  a single global timeline; datetime comparison and subtraction
  (total_seconds) become comparison and subtraction in ℚ.
* Python strings are modelled as List Char.
* An ETA feed entry, which in the source is a dict that may lack the eta
  key or hold a null eta, is modelled as Option ℚ (the parsed instant).
* JSON shard documents (two-level dicts) are modelled as association lists
  with set/get operations; Python dict keys are unique, which association
  lists updated through alist_set preserve.
* The on-disk state touched by read_file / write_file is modelled by
  Storage: the set of existing directories and a map from paths to file
  contents, a content being either a well-formed document or corrupt
  (anything that raises JSONDecodeError when loaded).
-/

/-- MIN_SEGMENT_SECONDS of src/main.py line 13. -/
def MIN_SEGMENT_SECONDS : ℚ := 5

/-- MAX_SEGMENT_SECONDS of src/main.py line 14. -/
def MAX_SEGMENT_SECONDS : ℚ := 3600

/-- min_diff_cal of src/main.py lines 23-31: lower window bound from the two
optional historical bounds. -/
def min_diff_cal (first last : Option ℚ) (default : ℚ) : ℚ :=
  match first, last with
  | none, none => default
  | some f, some l => max default (min f l * (3/4))
  | none, some l => max default (l * (3/4))
  | some f, none => max default (f * (3/4))

/-- max_diff_cal of src/main.py lines 34-42: upper window bound from the two
optional historical bounds. -/
def max_diff_cal (first last : Option ℚ) (default : ℚ) : ℚ :=
  match first, last with
  | none, none => default
  | some f, some l => min default (max f l * (5/4))
  | none, some l => min default (l * (5/4))
  | some f, none => min default (f * (5/4))

/-! Datetime parsing (parse_datetime, src/main.py lines 45-55).

The source calls datetime.strptime with the two formats
"%Y-%m-%dT%H:%M:%S.%f%z" and "%Y-%m-%dT%H:%M:%S%z".  CPython strptime
compiles one regular expression per format with IGNORECASE — so the literal
T separator also matches a lowercase t, while the Z alternative of %z is
explicitly case-sensitive — matches each directive, and then validates the
field values through the datetime and timezone constructors and through the
%z colon-consistency post-processing of _strptime; every failure raises
ValueError, which the source catches before trying the next format.  We
model each numeric directive by a greedy digit scan followed by a range
validation, which is observationally equal to the constrained regex +
constructor validation for these two formats because every directive is
delimited by a non-digit character. -/

/-- Numeric value of a digit character. -/
def digitVal (c : Char) : ℕ := c.toNat - 48

/-- Exactly n digits (the %Y directive uses n = 4), accumulating the value. -/
def digitsExact : ℕ → ℕ → List Char → Option (ℕ × List Char)
  | 0, acc, s => some (acc, s)
  | _ + 1, _, [] => none
  | n + 1, acc, c :: s =>
    if c.isDigit then digitsExact n (acc * 10 + digitVal c) s else none

/-- Greedy one-or-two digit scan (the %m, %d, %H, %M, %S directives). -/
def digits1to2 : List Char → Option (ℕ × List Char)
  | [] => none
  | c :: s =>
    if c.isDigit then
      match s with
      | d :: s2 =>
        if d.isDigit then some (digitVal c * 10 + digitVal d, s2)
        else some (digitVal c, d :: s2)
      | [] => some (digitVal c, [])
    else none

/-- Greedy scan of at most n further digits, returning the value, the number
of digits consumed, and the rest (used for %f and for offset fractions). -/
def takeDigitsUpTo : ℕ → ℕ → ℕ → List Char → ℕ × ℕ × List Char
  | 0, acc, k, s => (acc, k, s)
  | _ + 1, acc, k, [] => (acc, k, [])
  | n + 1, acc, k, c :: s =>
    if c.isDigit then takeDigitsUpTo n (acc * 10 + digitVal c) (k + 1) s
    else (acc, k, c :: s)

/-- Consume an optional colon (the regex piece ":?" inside %z). -/
def skipColon : List Char → List Char
  | ':' :: s => s
  | s => s

/-- Optional seconds group of the %z directive: ":?[0-5]d(.d<=6)?", applied
greedily; when the group does not fully apply the input is left untouched
(the enclosing full-match requirement then makes both readings fail alike).
Returns, when the group applies, whether its colon was used — needed for the
colon-consistency check of parse_z — and the seconds value, plus the rest. -/
def zSeconds (s : List Char) : Option (Bool × ℕ) × List Char :=
  let colon2 : Bool := decide (s.head? = some ':')
  match skipColon s with
  | c1 :: c2 :: rest =>
    if c1.isDigit ∧ digitVal c1 ≤ 5 ∧ c2.isDigit then
      let ss := digitVal c1 * 10 + digitVal c2
      match rest with
      | '.' :: rest2 =>
        let r := takeDigitsUpTo 6 0 0 rest2
        if r.2.1 = 0 then (some (colon2, ss), '.' :: rest2)
        else (some (colon2, ss), r.2.2)
      | _ => (some (colon2, ss), rest)
    else (none, s)
  | _ => (none, s)

/-- The %z directive as CPython handles it: a literal Z (kept case-sensitive
even under IGNORECASE), or a sign, two hour digits, an optional colon, a
constrained minute pair, and an optional seconds group.  After the regex
match, the _strptime group processing rejects inconsistent colon usage: a
minute colon without a seconds colon raises the Inconsistent-use-of-colon
ValueError, and a seconds colon without a minute colon makes the
fixed-position int slice of the seconds raise ValueError — so when seconds
are present, either both colons or neither must be used.  Returns the
offset in seconds. -/
def parse_z (s : List Char) : Option (ℤ × List Char) :=
  match s with
  | 'Z' :: rest => some (0, rest)
  | c :: rest =>
    if c = '+' ∨ c = '-' then
      match rest with
      | h1 :: h2 :: rest2 =>
        if h1.isDigit ∧ h2.isDigit then
          let hh := digitVal h1 * 10 + digitVal h2
          let colon1 : Bool := decide (rest2.head? = some ':')
          match skipColon rest2 with
          | m1 :: m2 :: rest3 =>
            if m1.isDigit ∧ digitVal m1 ≤ 5 ∧ m2.isDigit then
              let mm := digitVal m1 * 10 + digitVal m2
              match zSeconds rest3 with
              | (some (colon2, ss), rest4) =>
                if colon1 = colon2 then
                  let total : ℤ := (hh * 3600 + mm * 60 + ss : ℕ)
                  some (if c = '-' then -total else total, rest4)
                else none
              | (none, rest4) =>
                let total : ℤ := (hh * 3600 + mm * 60 : ℕ)
                some (if c = '-' then -total else total, rest4)
            else none
          | _ => none
        else none
      | _ => none
    else none
  | [] => none

/-- Leap-year rule used by the datetime constructor for day validation. -/
def isLeap (y : ℕ) : Bool := (y % 4 = 0 ∧ y % 100 ≠ 0) ∨ y % 400 = 0

/-- Number of days of a month, as validated by the datetime constructor. -/
def daysInMonth (y m : ℕ) : ℕ :=
  if m = 2 then (if isLeap y then 29 else 28)
  else if m = 4 ∨ m = 6 ∨ m = 9 ∨ m = 11 then 30
  else 31

/-- Field validation performed by the datetime and timezone constructors:
year at least 1 (MINYEAR), month and day in range for the parsed year. -/
def validDate (y mo d : ℕ) : Prop :=
  1 ≤ y ∧ 1 ≤ mo ∧ mo ≤ 12 ∧ 1 ≤ d ∧ d ≤ daysInMonth y mo

instance (y mo d : ℕ) : Decidable (validDate y mo d) := by
  unfold validDate; infer_instance

/-- Result of a successful strptime call for the two formats in use. -/
structure PyDateTime where
  year : ℕ
  month : ℕ
  day : ℕ
  hour : ℕ
  minute : ℕ
  second : ℕ
  microsecond : ℕ
  offsetSeconds : ℤ
deriving DecidableEq

/-- strptime against "%Y-%m-%dT%H:%M:%S.%f%z" (withFrac = true) or
"%Y-%m-%dT%H:%M:%S%z" (withFrac = false): the full input must be consumed
and all field validations pass, otherwise ValueError, modelled as none.  The
literal T separator also accepts a lowercase t because CPython compiles the
format regex with IGNORECASE. -/
def strptime_core (withFrac : Bool) (s : List Char) : Option PyDateTime := do
  let (y, s) ← digitsExact 4 0 s
  let s ← match s with | '-' :: r => some r | _ => none
  let (mo, s) ← digits1to2 s
  let s ← match s with | '-' :: r => some r | _ => none
  let (d, s) ← digits1to2 s
  let s ← match s with | 'T' :: r => some r | 't' :: r => some r | _ => none
  let (h, s) ← digits1to2 s
  let s ← match s with | ':' :: r => some r | _ => none
  let (mi, s) ← digits1to2 s
  let s ← match s with | ':' :: r => some r | _ => none
  let (sec, s) ← digits1to2 s
  let (micro, s) ←
    if withFrac then
      match s with
      | '.' :: r =>
        let t := takeDigitsUpTo 6 0 0 r
        if t.2.1 = 0 then none else some (t.1 * 10 ^ (6 - t.2.1), t.2.2)
      | _ => none
    else some (0, s)
  let (off, s) ← parse_z s
  if s = [] ∧ validDate y mo d ∧ h ≤ 23 ∧ mi ≤ 59 ∧ sec ≤ 59 ∧ off.natAbs < 86400 then
    some ⟨y, mo, d, h, mi, sec, micro, off⟩
  else none

/-- The fractional-seconds-with-offset encoding. -/
def strptime_frac (s : List Char) : Option PyDateTime := strptime_core true s

/-- The whole-seconds-with-offset encoding. -/
def strptime_whole (s : List Char) : Option PyDateTime := strptime_core false s

/-- Test for a trailing character (the endswith call of line 49). -/
def endsWithChar (c : Char) (s : List Char) : Bool :=
  match s.reverse with
  | x :: _ => x = c
  | [] => false

/-- The Z rewrite of src/main.py line 50: a trailing literal Z is replaced
by the explicit UTC offset +0000. -/
def zNormalize (s : List Char) : List Char :=
  if endsWithChar 'Z' s then s.dropLast ++ "+0000".toList else s

/-- Error message of src/main.py line 55 (the source wraps the text in
single quotation marks; those two decoration characters are elided here). -/
def errMsg (s : List Char) : List Char :=
  "time data ".toList ++ s ++ " does not match any supported format".toList

/-- parse_datetime of src/main.py lines 45-55.  The loop body rewrites the
(reassigned) string before each attempt, so the second attempt and the
error message see the rewritten string. -/
def parse_datetime (s : List Char) : Except (List Char) PyDateTime :=
  let s1 := zNormalize s
  match strptime_frac s1 with
  | some t => Except.ok t
  | none =>
    let s2 := zNormalize s1
    match strptime_whole s2 with
    | some t => Except.ok t
    | none => Except.error (errMsg s2)

/-! Segment-match resolver (find_best_match, src/main.py lines 120-152). -/

/-- One iteration of the scan loop of find_best_match (lines 134-147): skip
entries without an eta, skip arrivals earlier than the anchor, keep window
hits, and replace the best match only on a strictly smaller difference. -/
def best_step (anchor minD maxD : ℚ) (best : Option (ℚ × ℚ)) (e : Option ℚ) :
    Option (ℚ × ℚ) :=
  match e with
  | none => best
  | some t =>
    if t < anchor then best
    else
      let seg := t - anchor
      if minD ≤ seg ∧ seg ≤ maxD then
        match best with
        | none => some (t, seg)
        | some p => if seg < p.2 then some (t, seg) else some p
      else best

/-- The whole scan loop with its initial state (no best match yet). -/
def scan_etas (etas : List (Option ℚ)) (anchor minD maxD : ℚ) :
    Option (ℚ × ℚ) :=
  etas.foldl (best_step anchor minD maxD) none

/-- find_best_match of src/main.py lines 120-152.  firstBus and lastBus are
the two read_file results of lines 125-126 (the historical bounds); the
function returns the matched arrival instant and its segment seconds, or
none when the feed is empty or nothing survives the window. -/
def find_best_match (etas : List (Option ℚ)) (firstBus lastBus : Option ℚ)
    (anchor : ℚ) : Option (ℚ × ℚ) :=
  if etas.isEmpty then none
  else
    scan_etas etas anchor
      (min_diff_cal firstBus lastBus MIN_SEGMENT_SECONDS)
      (max_diff_cal firstBus lastBus MAX_SEGMENT_SECONDS)

/-- The entries the scan loop keeps, in feed order: non-null arrival, not
earlier than the anchor, segment seconds inside the window; paired with
their segment seconds. -/
def validSegs (etas : List (Option ℚ)) (anchor minD maxD : ℚ) :
    List (ℚ × ℚ) :=
  etas.filterMap fun e =>
    match e with
    | none => none
    | some t =>
      if t < anchor then none
      else if minD ≤ t - anchor ∧ t - anchor ≤ maxD then some (t, t - anchor)
      else none

/-- Minimum selection step over the kept entries, strictly-smaller
replacement as in the source loop. -/
def pickStep (best : Option (ℚ × ℚ)) (q : ℚ × ℚ) : Option (ℚ × ℚ) :=
  match best with
  | none => some q
  | some p => if q.2 < p.2 then some q else some p

/-- Minimum selection over a list of kept entries. -/
def pickMin (l : List (ℚ × ℚ)) : Option (ℚ × ℚ) :=
  l.foldl pickStep none

/-! Estimate store (read_file / write_file, src/main.py lines 180-238). -/

/-- Association-list get, mirroring a Python dict lookup. -/
def alist_get {κ α : Type} [DecidableEq κ] : List (κ × α) → κ → Option α
  | [], _ => none
  | (k1, v) :: rest, k => if k1 = k then some v else alist_get rest k

/-- Association-list set, mirroring a Python dict item assignment. -/
def alist_set {κ α : Type} [DecidableEq κ] : List (κ × α) → κ → α → List (κ × α)
  | [], k, v => [(k, v)]
  | (k1, v1) :: rest, k, v =>
    if k1 = k then (k, v) :: rest else (k1, v1) :: alist_set rest k v

/-- A shard document: first stop identifier to (second stop identifier to
stored seconds value). -/
def Doc : Type := List (String × List (String × ℚ))

instance : DecidableEq Doc := by unfold Doc; infer_instance

/-- Nested lookup of a stored value, as read_file performs it. -/
def doc_lookup (d : Doc) (a b : String) : Option ℚ :=
  match alist_get d a with
  | none => none
  | some times => alist_get times b

/-- Update of a loaded document by write_file (lines 218-230): blend with a
weight-9 moving average unless the prior value is negative or the long
segment / implausibly small prior override fires, in which case the new
sample replaces the prior value; missing levels are created. -/
def write_doc (d : Doc) (a b : String) (diff dist : ℚ) : Doc :=
  match alist_get d a with
  | none => alist_set d a [(b, diff)]
  | some times =>
    match alist_get times b with
    | none => alist_set d a (alist_set times b diff)
    | some time =>
      if time < 0 ∨ (dist > 3/2 ∧ time < min 2 diff) then
        alist_set d a (alist_set times b diff)
      else
        alist_set d a (alist_set times b ((time * 9 + diff) / 10))

/-- Content of a shard file: a well-formed document, or one that raises
JSONDecodeError when loaded. -/
inductive FileContent : Type
  | corrupt : FileContent
  | doc : Doc → FileContent
deriving DecidableEq

/-- A shard path, split into the directory part (os.path.dirname) and the
file name. -/
structure ShardPath where
  dir : String
  file : String
deriving DecidableEq

/-- The file-system state the estimate store touches: existing directories
and existing files with their contents. -/
structure Storage where
  dirs : List String
  files : List (ShardPath × FileContent)
deriving DecidableEq

/-- ensure_directory of src/main.py lines 180-182: create the directory if
it does not exist yet (os.makedirs with exist_ok). -/
def ensure_directory (dirName : String) (st : Storage) : Storage :=
  if dirName ∈ st.dirs then st else ⟨dirName :: st.dirs, st.files⟩

/-- read_file of src/main.py lines 184-207: ensure the parent directory,
open the shard, and return the nested value; a missing file, a decode
failure, or a missing key all yield none.  Returns the value together with
the (possibly directory-extended) state. -/
def read_file (st : Storage) (p : ShardPath) (a b : String) :
    Option ℚ × Storage :=
  let st1 := ensure_directory p.dir st
  match alist_get st1.files p with
  | none => (none, st1)
  | some FileContent.corrupt => (none, st1)
  | some (FileContent.doc d) => (doc_lookup d a b, st1)

/-- write_file of src/main.py lines 210-238: ensure the parent directory,
load the shard (a missing or corrupt shard leaves the preinitialized
singleton document of line 214 in place), apply the update, and persist the
resulting document. -/
def write_file (st : Storage) (p : ShardPath) (a b : String)
    (diff dist : ℚ) : Storage :=
  let st1 := ensure_directory p.dir st
  let newdoc :=
    match alist_get st1.files p with
    | none => [(a, [(b, diff)])]
    | some FileContent.corrupt => [(a, [(b, diff)])]
    | some (FileContent.doc d) => write_doc d a b diff dist
  ⟨st1.dirs, alist_set st1.files p (FileContent.doc newdoc)⟩

/-! Sampling-rate governor (roll_chance, src/main.py lines 245-262). -/

/-- Probability after the night-window reduction of src/main.py lines
251-254: chance starts at 1 and is lowered to 0.01 during hours [2,5) unless
the route number starts with N or ends with S. -/
def nightChance (routeNumber : List Char) (hour : ℤ) : ℚ :=
  if 2 ≤ hour ∧ hour < 5 then
    if ¬ (routeNumber.head? = some 'N' ∨ routeNumber.getLast? = some 'S')
    then 1/100 else 1
  else 1

/-- roll_chance of src/main.py lines 245-262, with the ambient state made
explicit: hour is int(current_hour()), now is the rounded current timestamp
of line 256, prevGmb the global previous_gmb_query, and u the value drawn
by random.uniform(0, 1).  Returns the accept decision, the probability
stored into info[0] (left at the caller initialization 1 on the no-digit
early return), and the new previous_gmb_query value. -/
def roll_chance (routeNumber : List Char) (co : List String) (hour : ℤ)
    (now prevGmb : ℤ) (u : ℚ) : Bool × ℚ × ℤ :=
  if routeNumber.any Char.isDigit then
    let c1 : ℚ := nightChance routeNumber hour
    let res : ℚ × ℤ :=
      if "gmb" ∈ co then
        if now - prevGmb < 5 then (0, prevGmb) else (c1, now)
      else (c1, prevGmb)
    (decide (res.1 > 0) && (decide (res.1 ≥ 1) || decide (u ≥ res.1)),
      res.1, res.2)
  else (true, 1, prevGmb)

/-- Success observer for Except values. -/
def exceptOk {ε α : Type} : Except ε α → Bool
  | Except.ok _ => true
  | Except.error _ => false

/-! Helper lemmas. -/

theorem alist_get_set {κ α : Type} [DecidableEq κ] (l : List (κ × α)) (k : κ)
    (v : α) : alist_get (alist_set l k v) k = some v := by
  induction l with
  | nil => simp [alist_set, alist_get]
  | cons hd tl ih =>
    obtain ⟨k1, v1⟩ := hd
    by_cases h : k1 = k
    · simp [alist_set, alist_get, h]
    · simp [alist_set, alist_get, h, ih]

theorem ensure_directory_files (dirName : String) (st : Storage) :
    (ensure_directory dirName st).files = st.files := by
  unfold ensure_directory; split <;> rfl

/-- C5: the computed window satisfies minDiff = max(5, 0.75 * min(first, last))
and maxDiff = min(3600, 1.25 * max(first, last)) when both historical bounds
exist; a single bound is scaled the same way; with no bound the defaults 5 and
3600 are retained. -/
theorem diff_cal_window (f l : ℚ) :
    min_diff_cal none none MIN_SEGMENT_SECONDS = 5 ∧
    max_diff_cal none none MAX_SEGMENT_SECONDS = 3600 ∧
    min_diff_cal (some f) (some l) MIN_SEGMENT_SECONDS = max 5 (3/4 * min f l) ∧
    max_diff_cal (some f) (some l) MAX_SEGMENT_SECONDS = min 3600 (5/4 * max f l) ∧
    min_diff_cal (some f) none MIN_SEGMENT_SECONDS = max 5 (3/4 * f) ∧
    min_diff_cal none (some l) MIN_SEGMENT_SECONDS = max 5 (3/4 * l) ∧
    max_diff_cal (some f) none MAX_SEGMENT_SECONDS = min 3600 (5/4 * f) ∧
    max_diff_cal none (some l) MAX_SEGMENT_SECONDS = min 3600 (5/4 * l) := by
  refine ⟨rfl, rfl, ?_, ?_, ?_, ?_, ?_, ?_⟩ <;>
    simp [min_diff_cal, max_diff_cal, MIN_SEGMENT_SECONDS, MAX_SEGMENT_SECONDS,
      mul_comm]

/-- C2: a write stores the new sample when no prior value exists, overwrites
when the prior value is negative or the long-segment small-prior override
fires, and otherwise blends with weight 9 on the prior value; in particular
prior 90 with distance 0.3 and sample 30 blends to 84, and prior -1 with
sample 200 is overwritten to 200. -/
theorem write_doc_stored_value (d : Doc) (a b : String) (s dist : ℚ) :
    doc_lookup (write_doc d a b s dist) a b =
      some (match doc_lookup d a b with
            | none => s
            | some prev =>
              if prev < 0 ∨ (dist > 3/2 ∧ prev < min 2 s) then s
              else (prev * 9 + s) / 10) ∧
    doc_lookup (write_doc [("A", [("B", 90)])] ("A") ("B") 30 (3/10)) ("A") ("B")
      = some 84 ∧
    doc_lookup (write_doc [("A", [("B", -1)])] ("A") ("B") 200 1) ("A") ("B")
      = some 200 := by
  refine ⟨?_, ?_, ?_⟩
  · unfold write_doc
    cases h1 : alist_get d a with
    | none => simp [doc_lookup, h1, alist_get_set, alist_get]
    | some times =>
      cases h2 : alist_get times b with
      | none => simp [doc_lookup, h1, h2, alist_get_set]
      | some prev =>
        simp only [doc_lookup, h1, h2]
        split_ifs with h3 <;> simp [doc_lookup, alist_get_set]
  · norm_num [write_doc, doc_lookup, alist_get, alist_set]
  · norm_num [write_doc, doc_lookup, alist_get, alist_set]

/-- C10: when the overwrite condition does not fire on non-negative prior and
sample, the stored result is the blend (prev * 9 + s) / 10, which lies between
min(prev, s) and max(prev, s) inclusive and in particular stays non-negative. -/
theorem write_doc_blend_bounded (d : Doc) (a b : String) (prev s dist : ℚ)
    (hprev : doc_lookup d a b = some prev) (h0 : 0 ≤ prev) (h1 : 0 ≤ s)
    (hov : ¬ (dist > 3/2 ∧ prev < min 2 s)) :
    doc_lookup (write_doc d a b s dist) a b = some ((prev * 9 + s) / 10) ∧
    min prev s ≤ (prev * 9 + s) / 10 ∧
    (prev * 9 + s) / 10 ≤ max prev s ∧
    0 ≤ (prev * 9 + s) / 10 := by
  have hcond : ¬ (prev < 0 ∨ (dist > 3/2 ∧ prev < min 2 s)) := by
    rintro (hneg | hlong)
    · exact absurd hneg (not_lt.mpr h0)
    · exact hov hlong
  have hmin : min prev s ≤ (prev * 9 + s) / 10 := by
    rcases le_total prev s with h | h
    · rw [min_eq_left h]; linarith
    · rw [min_eq_right h]; linarith
  have hmax : (prev * 9 + s) / 10 ≤ max prev s := by
    rcases le_total prev s with h | h
    · rw [max_eq_right h]; linarith
    · rw [max_eq_left h]; linarith
  refine ⟨?_, hmin, hmax, le_trans (le_min h0 h1) hmin⟩
  unfold doc_lookup at hprev
  cases h2 : alist_get d a with
  | none => rw [h2] at hprev; simp at hprev
  | some times =>
    rw [h2] at hprev
    simp only at hprev
    unfold write_doc
    simp only [h2, hprev]
    rw [if_neg hcond]
    simp [doc_lookup, alist_get_set]

theorem read_file_state (st : Storage) (p : ShardPath) (a b : String) :
    (read_file st p a b).2 = ensure_directory p.dir st := by
  simp only [read_file]
  split <;> rfl

/-- C8: on a missing or corrupt shard, read returns absent and write proceeds
from no prior data, persisting a document holding exactly the new sample under
the written key pair; neither operation is fatal (both are total here). -/
theorem missing_or_corrupt_shard (st : Storage) (p : ShardPath) (a b : String)
    (s dist : ℚ)
    (h : alist_get st.files p = none ∨
         alist_get st.files p = some FileContent.corrupt) :
    (read_file st p a b).1 = none ∧
    alist_get (write_file st p a b s dist).files p =
      some (FileContent.doc [(a, [(b, s)])]) := by
  have hf : alist_get (ensure_directory p.dir st).files p =
      alist_get st.files p := by rw [ensure_directory_files]
  constructor
  · unfold read_file
    rcases h with h | h <;> simp [hf, h]
  · unfold write_file
    rcases h with h | h <;> simp [hf, h, alist_get_set]

/-- C8 witness: concrete instance on the empty storage. -/
theorem missing_or_corrupt_shard_witness :
    (read_file ⟨[], []⟩ ⟨"times", "AB.json"⟩ ("a") ("b")).1 = none ∧
    alist_get (write_file ⟨[], []⟩ ⟨"times", "AB.json"⟩ ("a") ("b") 7 1).files
      ⟨"times", "AB.json"⟩ = some (FileContent.doc [("a", [("b", 7)])]) :=
  missing_or_corrupt_shard ⟨[], []⟩ ⟨"times", "AB.json"⟩ ("a") ("b") 7 1
    (Or.inl rfl)

/-- C9 counterexample: on a state with no directories, read of an absent shard
changes the storage state — it creates the parent directory. -/
theorem read_file_creates_directory :
    (read_file ⟨[], []⟩ ⟨"first_bus_times", "AB.json"⟩ ("a") ("b")).2 ≠
      (⟨[], []⟩ : Storage) := by
  decide

/-- C9 amended: read returns the stored nested value when present and absent
otherwise, never changes the files, and leaves the directories unchanged
except that it creates the missing parent directory of the shard; when that
directory already exists the storage state is entirely unchanged. -/
theorem read_file_reads_only (st : Storage) (p : ShardPath) (a b : String) :
    (read_file st p a b).1 =
      (match alist_get st.files p with
       | some (FileContent.doc d) => doc_lookup d a b
       | _ => none) ∧
    (read_file st p a b).2.files = st.files ∧
    (read_file st p a b).2.dirs =
      (if p.dir ∈ st.dirs then st.dirs else p.dir :: st.dirs) ∧
    (p.dir ∈ st.dirs → (read_file st p a b).2 = st) := by
  have hf : alist_get (ensure_directory p.dir st).files p =
      alist_get st.files p := by rw [ensure_directory_files]
  refine ⟨?_, ?_, ?_, ?_⟩
  · unfold read_file
    cases h : alist_get st.files p with
    | none => simp [hf, h]
    | some c => cases c <;> simp [hf, h]
  · rw [read_file_state, ensure_directory_files]
  · rw [read_file_state]; unfold ensure_directory; split <;> rfl
  · intro h; rw [read_file_state]; unfold ensure_directory; rw [if_pos h]

/-- C9 witness: when the parent directory exists, read leaves the state
unchanged. -/
theorem read_file_reads_only_witness :
    (read_file ⟨["times"], []⟩ ⟨"times", "AB.json"⟩ ("a") ("b")).2 =
      (⟨["times"], []⟩ : Storage) :=
  (read_file_reads_only ⟨["times"], []⟩ ⟨"times", "AB.json"⟩ ("a") ("b")).2.2.2
    (by decide)

/-- C6: the computed probability is 1 (with unconditional acceptance) for a
route number without digits; otherwise it is the night-window value — 1,
lowered to 0.01 during local hours [2,5) unless the number starts with N or
ends with S — and a gmb route queried less than 5 seconds after the shared
last-query timestamp gets probability 0 with the timestamp unchanged, while
an unthrottled gmb route keeps the night-window value and updates the shared
timestamp to now; non-gmb routes leave the timestamp unchanged. -/
theorem roll_chance_probability_calc (rn : List Char) (co : List String)
    (hour : ℤ) (now prev : ℤ) (u : ℚ) :
    (rn.any Char.isDigit = false →
      roll_chance rn co hour now prev u = (true, 1, prev)) ∧
    (rn.any Char.isDigit = true → "gmb" ∈ co → now - prev < 5 →
      (roll_chance rn co hour now prev u).2.1 = 0 ∧
      (roll_chance rn co hour now prev u).2.2 = prev) ∧
    (rn.any Char.isDigit = true → "gmb" ∈ co → 5 ≤ now - prev →
      (roll_chance rn co hour now prev u).2.1 = nightChance rn hour ∧
      (roll_chance rn co hour now prev u).2.2 = now) ∧
    (rn.any Char.isDigit = true → "gmb" ∉ co →
      (roll_chance rn co hour now prev u).2.1 = nightChance rn hour ∧
      (roll_chance rn co hour now prev u).2.2 = prev) ∧
    (2 ≤ hour → hour < 5 →
      ¬ (rn.head? = some 'N' ∨ rn.getLast? = some 'S') →
      nightChance rn hour = 1/100) ∧
    (¬ (2 ≤ hour ∧ hour < 5) → nightChance rn hour = 1) ∧
    ((rn.head? = some 'N' ∨ rn.getLast? = some 'S') →
      nightChance rn hour = 1) := by
  refine ⟨?_, ?_, ?_, ?_, ?_, ?_, ?_⟩
  · intro h; simp [roll_chance, h]
  · intro h1 h2 h3; simp [roll_chance, h1, h2, h3, not_le.mpr h3]
  · intro h1 h2 h3; simp [roll_chance, h1, h2, not_lt.mpr h3]
  · intro h1 h2; simp [roll_chance, h1, h2]
  · intro h1 h2 h3; simp [nightChance, h1, h2, h3]
  · intro h; simp [nightChance, h]
  · intro h; simp [nightChance, h]

/-- C6 witness: a digit-bearing gmb route at hour 3, queried 2 seconds after
the shared timestamp, gets probability 0 and leaves the timestamp unchanged. -/
theorem roll_chance_probability_calc_witness :
    (roll_chance ("12".toList) (["gmb"]) 3 10 8 (1/2)).2.1 = 0 ∧
    (roll_chance ("12".toList) (["gmb"]) 3 10 8 (1/2)).2.2 = 8 :=
  (roll_chance_probability_calc ("12".toList) (["gmb"]) 3 10 8 (1/2)).2.1
    (by decide) (by decide) (by decide)

/-- C1 (code bug): with computed probability 0.01 strictly between 0 and 1,
the final decision of line 262 accepts exactly when the uniform draw is
greater than or equal to the probability, the opposite of accepting when the
draw is below it: the draw 1/2 (not below 0.01) is accepted and the draw
1/200 (below 0.01) is rejected. -/
theorem roll_chance_draw_inverted :
    (roll_chance ("12".toList) (["kmb"]) 3 100 0 (1/2)).2.1 = 1/100 ∧
    (roll_chance ("12".toList) (["kmb"]) 3 100 0 (1/2)).1 = true ∧
    ¬ ((1:ℚ)/2 < 1/100) ∧
    (roll_chance ("12".toList) (["kmb"]) 3 100 0 (1/200)).1 = false ∧
    ((1:ℚ)/200 < 1/100) := by
  have hd : ("12".toList).any Char.isDigit = true := by decide
  have hn : ¬ (("12".toList).head? = some 'N' ∨
      ("12".toList).getLast? = some 'S') := by decide
  have hg : "gmb" ∉ ["kmb"] := by decide
  refine ⟨?_, ?_, by norm_num, ?_, by norm_num⟩ <;>
    · simp [roll_chance, nightChance, hd, hn, hg]
      try norm_num

/-- C10 witness: blending prior 90 with sample 30 at distance 0.3 gives 84,
inside [30, 90]. -/
theorem write_doc_blend_bounded_witness :
    doc_lookup (write_doc [("A", [("B", 90)])] ("A") ("B") 30 (3/10)) ("A") ("B")
      = some ((90 * 9 + 30) / 10) ∧
    min 90 30 ≤ ((90:ℚ) * 9 + 30) / 10 ∧
    ((90:ℚ) * 9 + 30) / 10 ≤ max 90 30 ∧
    0 ≤ ((90:ℚ) * 9 + 30) / 10 :=
  write_doc_blend_bounded [("A", [("B", 90)])] ("A") ("B") 90 30 (3/10)
    (by simp [doc_lookup, alist_get]) (by norm_num) (by norm_num)
    (fun h => absurd h.1 (by norm_num))

/-- Invariant carried by the scan loop state: a recorded best match is an
arrival no earlier than the anchor whose segment seconds equal the arrival
minus the anchor and lie inside the window. -/
def segOK (anchor minD maxD : ℚ) (p : ℚ × ℚ) : Prop :=
  anchor ≤ p.1 ∧ p.2 = p.1 - anchor ∧ minD ≤ p.2 ∧ p.2 ≤ maxD

theorem best_step_preserves (anchor minD maxD : ℚ) (acc : Option (ℚ × ℚ))
    (e : Option ℚ)
    (h : ∀ p, acc = some p → segOK anchor minD maxD p) :
    ∀ p, best_step anchor minD maxD acc e = some p →
      segOK anchor minD maxD p := by
  intro p hp
  cases e with
  | none => exact h p hp
  | some t =>
    simp only [best_step] at hp
    by_cases h1 : t < anchor
    · rw [if_pos h1] at hp; exact h p hp
    · rw [if_neg h1] at hp
      by_cases h2 : minD ≤ t - anchor ∧ t - anchor ≤ maxD
      · rw [if_pos h2] at hp
        cases hacc : acc with
        | none =>
          rw [hacc] at hp
          cases hp
          exact ⟨le_of_not_lt h1, rfl, h2.1, h2.2⟩
        | some q =>
          rw [hacc] at hp
          simp only at hp
          by_cases h3 : t - anchor < q.2
          · rw [if_pos h3] at hp
            cases hp
            exact ⟨le_of_not_lt h1, rfl, h2.1, h2.2⟩
          · rw [if_neg h3] at hp
            cases hp
            exact h _ hacc
      · rw [if_neg h2] at hp; exact h p hp

theorem scan_inv (anchor minD maxD : ℚ) :
    ∀ (etas : List (Option ℚ)) (acc : Option (ℚ × ℚ)),
      (∀ p, acc = some p → segOK anchor minD maxD p) →
      ∀ p, List.foldl (best_step anchor minD maxD) acc etas = some p →
        segOK anchor minD maxD p := by
  intro etas
  induction etas with
  | nil => intro acc h p hp; exact h p hp
  | cons e rest ih =>
    intro acc h p hp
    exact ih (best_step anchor minD maxD acc e)
      (best_step_preserves anchor minD maxD acc e h) p hp

theorem min_diff_cal_ge (f l : Option ℚ) (df : ℚ) :
    df ≤ min_diff_cal f l df := by
  cases f <;> cases l <;> simp [min_diff_cal]

theorem max_diff_cal_le (f l : Option ℚ) (df : ℚ) :
    max_diff_cal f l df ≤ df := by
  cases f <;> cases l <;> simp [max_diff_cal]

/-- C3: whatever the historical bounds, a returned match has its segment
seconds inside the computed window [minDiff, maxDiff], hence inside the
absolute range [5, 3600], and its arrival is not earlier than the anchor. -/
theorem find_best_match_window (etas : List (Option ℚ)) (fb lb : Option ℚ)
    (anchor t seg : ℚ)
    (h : find_best_match etas fb lb anchor = some (t, seg)) :
    min_diff_cal fb lb MIN_SEGMENT_SECONDS ≤ seg ∧
    seg ≤ max_diff_cal fb lb MAX_SEGMENT_SECONDS ∧
    (5:ℚ) ≤ seg ∧ seg ≤ 3600 ∧ anchor ≤ t := by
  unfold find_best_match at h
  by_cases he : etas.isEmpty
  · rw [if_pos he] at h; cases h
  · rw [if_neg he] at h
    have hs := scan_inv anchor (min_diff_cal fb lb MIN_SEGMENT_SECONDS)
      (max_diff_cal fb lb MAX_SEGMENT_SECONDS) etas none
      (fun p hp => by cases hp) (t, seg) h
    obtain ⟨h1, _, h3, h4⟩ := hs
    refine ⟨h3, h4, ?_, ?_, h1⟩
    · exact le_trans (min_diff_cal_ge fb lb MIN_SEGMENT_SECONDS) h3
    · exact le_trans h4 (max_diff_cal_le fb lb MAX_SEGMENT_SECONDS)

/-- C3 witness: a single in-window ETA ten seconds after the anchor. -/
theorem find_best_match_window_witness :
    min_diff_cal none none MIN_SEGMENT_SECONDS ≤ 10 ∧
    (10:ℚ) ≤ max_diff_cal none none MAX_SEGMENT_SECONDS ∧
    (5:ℚ) ≤ 10 ∧ (10:ℚ) ≤ 3600 ∧ (28800:ℚ) ≤ 28810 :=
  find_best_match_window [some 28810] none none 28800 28810 10 (by
    simp [find_best_match, scan_etas, best_step, min_diff_cal, max_diff_cal,
      MIN_SEGMENT_SECONDS, MAX_SEGMENT_SECONDS]
    norm_num)

theorem scan_eq_pick (anchor minD maxD : ℚ) :
    ∀ (etas : List (Option ℚ)) (acc : Option (ℚ × ℚ)),
      List.foldl (best_step anchor minD maxD) acc etas =
        List.foldl pickStep acc (validSegs etas anchor minD maxD) := by
  intro etas
  induction etas with
  | nil => intro acc; rfl
  | cons e rest ih =>
    intro acc
    cases e with
    | none =>
      have hv : validSegs (none :: rest) anchor minD maxD =
          validSegs rest anchor minD maxD := by
        simp only [validSegs, List.filterMap_cons]
      rw [List.foldl_cons, show best_step anchor minD maxD acc none = acc
        from rfl, hv]
      exact ih acc
    | some t =>
      by_cases h1 : t < anchor
      · have hs : best_step anchor minD maxD acc (some t) = acc := by
          simp only [best_step]
          rw [if_pos h1]
        have hv : validSegs (some t :: rest) anchor minD maxD =
            validSegs rest anchor minD maxD := by
          simp only [validSegs, List.filterMap_cons]
          rw [if_pos h1]
        rw [List.foldl_cons, hs, hv]
        exact ih acc
      · by_cases h2 : minD ≤ t - anchor ∧ t - anchor ≤ maxD
        · have hs : best_step anchor minD maxD acc (some t) =
              pickStep acc (t, t - anchor) := by
            simp only [best_step, pickStep]
            rw [if_neg h1, if_pos h2]
          have hv : validSegs (some t :: rest) anchor minD maxD =
              (t, t - anchor) :: validSegs rest anchor minD maxD := by
            simp only [validSegs, List.filterMap_cons]
            rw [if_neg h1, if_pos h2]
          rw [List.foldl_cons, hs, hv, List.foldl_cons]
          exact ih (pickStep acc (t, t - anchor))
        · have hs : best_step anchor minD maxD acc (some t) = acc := by
            simp only [best_step]
            rw [if_neg h1, if_neg h2]
          have hv : validSegs (some t :: rest) anchor minD maxD =
              validSegs rest anchor minD maxD := by
            simp only [validSegs, List.filterMap_cons]
            rw [if_neg h1, if_neg h2]
          rw [List.foldl_cons, hs, hv]
          exact ih acc

theorem pick_some : ∀ (l : List (ℚ × ℚ)) (p0 : ℚ × ℚ),
    ∃ p, List.foldl pickStep (some p0) l = some p := by
  intro l
  induction l with
  | nil => intro p0; exact ⟨p0, rfl⟩
  | cons q rest ih =>
    intro p0
    have h : pickStep (some p0) q = some (if q.2 < p0.2 then q else p0) := by
      simp only [pickStep]; split <;> rfl
    rw [List.foldl_cons, h]
    exact ih _

theorem pick_first_min : ∀ (l : List (ℚ × ℚ)) (p0 p : ℚ × ℚ),
    List.foldl pickStep (some p0) l = some p →
    (p = p0 ∧ ∀ q ∈ l, p0.2 ≤ q.2) ∨
    (∃ l1 l2, l = l1 ++ p :: l2 ∧ p.2 < p0.2 ∧
      (∀ r ∈ l1, p.2 < r.2) ∧ (∀ r ∈ l2, p.2 ≤ r.2)) := by
  intro l
  induction l with
  | nil =>
    intro p0 p h
    left
    have hp : p0 = p := by simpa using h
    exact ⟨hp.symm, fun q hq => absurd hq (List.not_mem_nil q)⟩
  | cons x xs ih =>
    intro p0 p h
    rw [List.foldl_cons] at h
    by_cases hlt : x.2 < p0.2
    · rw [show pickStep (some p0) x = some x from by simp [pickStep, hlt]] at h
      rcases ih x p h with ⟨hpx, hall⟩ | ⟨l1, l2, heq, hlt2, hl1, hl2⟩
      · subst hpx
        right
        exact ⟨[], xs, rfl, hlt,
          fun r hr => absurd hr (List.not_mem_nil r), hall⟩
      · right
        refine ⟨x :: l1, l2, by rw [heq]; rfl, lt_trans hlt2 hlt, ?_, hl2⟩
        intro r hr
        rcases List.mem_cons.mp hr with rfl | hr2
        · exact hlt2
        · exact hl1 r hr2
    · rw [show pickStep (some p0) x = some p0 from by simp [pickStep, hlt]] at h
      rcases ih p0 p h with ⟨hpx, hall⟩ | ⟨l1, l2, heq, hlt2, hl1, hl2⟩
      · left
        refine ⟨hpx, ?_⟩
        intro q hq
        rcases List.mem_cons.mp hq with rfl | hq2
        · exact le_of_not_lt hlt
        · exact hall q hq2
      · right
        refine ⟨x :: l1, l2, by rw [heq]; rfl, hlt2, ?_, hl2⟩
        intro r hr
        rcases List.mem_cons.mp hr with rfl | hr2
        · exact lt_of_lt_of_le hlt2 (le_of_not_lt hlt)
        · exact hl1 r hr2

theorem pickMin_first_min (l : List (ℚ × ℚ)) (p : ℚ × ℚ)
    (h : pickMin l = some p) :
    ∃ l1 l2, l = l1 ++ p :: l2 ∧ (∀ r ∈ l1, p.2 < r.2) ∧
      (∀ r ∈ l2, p.2 ≤ r.2) := by
  cases l with
  | nil => cases h
  | cons x xs =>
    have hx : List.foldl pickStep (some x) xs = some p := h
    rcases pick_first_min xs x p hx with ⟨hpx, hall⟩ |
      ⟨l1, l2, heq, hlt2, hl1, hl2⟩
    · subst hpx
      exact ⟨[], xs, rfl, fun r hr => absurd hr (List.not_mem_nil r), hall⟩
    · refine ⟨x :: l1, l2, by rw [heq]; rfl, ?_, hl2⟩
      intro r hr
      rcases List.mem_cons.mp hr with rfl | hr2
      · exact hlt2
      · exact hl1 r hr2

/-- C4: a returned match is a kept entry (non-null arrival, not earlier than
the anchor, inside the window) of minimal segment seconds, and it is the
first such entry in feed order (everything before it in the kept list is
strictly larger, everything after is at least as large); a match is returned
whenever some entry is kept; and on the concrete scenario with anchor
2024-01-01T08:00:00+0800 (epoch second 1704067200), ETAs ten seconds and
five minutes later and window [5, 3600], the ten-second entry is selected
with segment seconds 10. -/
theorem find_best_match_first_min :
    (∀ (etas : List (Option ℚ)) (fb lb : Option ℚ) (anchor : ℚ) (p : ℚ × ℚ),
      find_best_match etas fb lb anchor = some p →
      ∃ l1 l2,
        validSegs etas anchor (min_diff_cal fb lb MIN_SEGMENT_SECONDS)
            (max_diff_cal fb lb MAX_SEGMENT_SECONDS) = l1 ++ p :: l2 ∧
        (∀ r ∈ l1, p.2 < r.2) ∧ (∀ r ∈ l2, p.2 ≤ r.2)) ∧
    (∀ (etas : List (Option ℚ)) (fb lb : Option ℚ) (anchor : ℚ),
      validSegs etas anchor (min_diff_cal fb lb MIN_SEGMENT_SECONDS)
          (max_diff_cal fb lb MAX_SEGMENT_SECONDS) ≠ [] →
      (find_best_match etas fb lb anchor).isSome = true) ∧
    find_best_match [some 1704067210, some 1704067500] none none 1704067200 =
      some (1704067210, 10) := by
  refine ⟨?_, ?_, ?_⟩
  · intro etas fb lb anchor p h
    unfold find_best_match at h
    by_cases he : etas.isEmpty
    · rw [if_pos he] at h; cases h
    · rw [if_neg he] at h
      have h2 : pickMin (validSegs etas anchor
          (min_diff_cal fb lb MIN_SEGMENT_SECONDS)
          (max_diff_cal fb lb MAX_SEGMENT_SECONDS)) = some p :=
        (scan_eq_pick _ _ _ etas none).symm.trans h
      exact pickMin_first_min _ p h2
  · intro etas fb lb anchor hne
    cases etas with
    | nil => exact absurd rfl hne
    | cons e rest =>
      unfold find_best_match
      rw [if_neg (by simp)]
      show (List.foldl (best_step anchor
        (min_diff_cal fb lb MIN_SEGMENT_SECONDS)
        (max_diff_cal fb lb MAX_SEGMENT_SECONDS)) none (e :: rest)).isSome
          = true
      rw [scan_eq_pick]
      cases hv : validSegs (e :: rest) anchor
          (min_diff_cal fb lb MIN_SEGMENT_SECONDS)
          (max_diff_cal fb lb MAX_SEGMENT_SECONDS) with
      | nil => exact absurd hv hne
      | cons q qs =>
        rw [List.foldl_cons, show pickStep none q = some q from rfl]
        obtain ⟨p, hp⟩ := pick_some qs q
        rw [hp]
        rfl
  · simp [find_best_match, scan_etas, best_step, min_diff_cal, max_diff_cal,
      MIN_SEGMENT_SECONDS, MAX_SEGMENT_SECONDS]
    norm_num

/-- C4 witness: instantiation of the first-minimum property on the concrete
scenario, its match hypothesis discharged by the concrete conjunct. -/
theorem find_best_match_first_min_witness :
    ∃ l1 l2,
      validSegs [some 1704067210, some 1704067500] 1704067200
          (min_diff_cal none none MIN_SEGMENT_SECONDS)
          (max_diff_cal none none MAX_SEGMENT_SECONDS) =
        l1 ++ ((1704067210:ℚ), (10:ℚ)) :: l2 ∧
      (∀ r ∈ l1, ((1704067210:ℚ), (10:ℚ)).2 < r.2) ∧
      (∀ r ∈ l2, ((1704067210:ℚ), (10:ℚ)).2 ≤ r.2) :=
  find_best_match_first_min.1 [some 1704067210, some 1704067500] none none
    1704067200 ((1704067210:ℚ), (10:ℚ)) find_best_match_first_min.2.2

theorem endsWithChar_pad (l : List Char) :
    endsWithChar 'Z' (l ++ "+0000".toList) = false := by
  unfold endsWithChar
  rw [List.reverse_append]
  rfl

theorem zNormalize_idem (s : List Char) :
    zNormalize (zNormalize s) = zNormalize s := by
  unfold zNormalize
  by_cases h : endsWithChar 'Z' s = true
  · rw [if_pos h, endsWithChar_pad]
    simp
  · rw [if_neg h, if_neg h]

theorem parse_datetime_zNorm (s : List Char) :
    parse_datetime s = parse_datetime (zNormalize s) := by
  simp only [parse_datetime, zNormalize_idem]

/-- C7 counterexample: the input badZ matches neither encoding; the raised
message contains the rewritten text bad+0000, and the offending input text
badZ does not occur in the message. -/
theorem parse_datetime_message_drops_z :
    parse_datetime ("badZ".toList) =
      Except.error (errMsg ("bad+0000".toList)) ∧
    ¬ List.IsInfix ("badZ".toList) (errMsg ("bad+0000".toList)) := by
  constructor
  · rfl
  · decide

/-- C7 amended: parse_datetime succeeds exactly on the two accepted encodings
applied after the trailing-Z rewrite, a trailing literal Z is treated as the
explicit UTC offset +0000, and on failure the raised message contains the
Z-normalized input text — which is the offending input text itself whenever
the input does not end in Z. -/
theorem parse_datetime_behavior (s : List Char) :
    (exceptOk (parse_datetime s) = true ↔
      (strptime_frac (zNormalize s)).isSome = true ∨
      (strptime_whole (zNormalize s)).isSome = true) ∧
    (endsWithChar 'Z' s = true →
      parse_datetime s = parse_datetime (s.dropLast ++ "+0000".toList)) ∧
    (strptime_frac (zNormalize s) = none →
      strptime_whole (zNormalize s) = none →
      parse_datetime s = Except.error (errMsg (zNormalize s)) ∧
      List.IsInfix (zNormalize s) (errMsg (zNormalize s)) ∧
      (endsWithChar 'Z' s = false →
        List.IsInfix s (errMsg (zNormalize s)))) := by
  refine ⟨?_, ?_, ?_⟩
  · simp only [parse_datetime, zNormalize_idem]
    cases hf : strptime_frac (zNormalize s) with
    | some t => simp [exceptOk]
    | none =>
      cases hw : strptime_whole (zNormalize s) with
      | some t => simp [exceptOk]
      | none => simp [exceptOk]
  · intro h
    rw [parse_datetime_zNorm s]
    unfold zNormalize
    rw [if_pos h]
  · intro hf hw
    refine ⟨?_, ⟨"time data ".toList, " does not match any supported format".toList, rfl⟩, ?_⟩
    · simp only [parse_datetime, zNormalize_idem]
      rw [hf, hw]
    · intro h
      have hz : zNormalize s = s := by unfold zNormalize; rw [h]; rfl
      rw [hz]
      exact ⟨"time data ".toList,
        " does not match any supported format".toList, rfl⟩

/-- C7 witness: concrete failing input ending in Z, exercising the trailing-Z
rewrite and the error-message conjunct. -/
theorem parse_datetime_behavior_witness :
    (parse_datetime ("xZ".toList) =
      parse_datetime (("xZ".toList).dropLast ++ "+0000".toList)) ∧
    (parse_datetime ("xZ".toList) =
      Except.error (errMsg (zNormalize ("xZ".toList))) ∧
    List.IsInfix (zNormalize ("xZ".toList)) (errMsg (zNormalize ("xZ".toList))) ∧
    (endsWithChar 'Z' ("xZ".toList) = false →
      List.IsInfix ("xZ".toList) (errMsg (zNormalize ("xZ".toList))))) :=
  ⟨(parse_datetime_behavior ("xZ".toList)).2.1 (by decide),
   (parse_datetime_behavior ("xZ".toList)).2.2 (by decide) (by decide)⟩
